import Mathlib

/-!
Verification of the icalendar component builder and serializer.

The component layer (`InnerComponent`, the `Component` trait surface and
`fmt_write`) is embedded from `src/components.rs`.  Mutable builder methods
become explicit state-passing functions on `InnerComponent`; the standard
`BTreeMap<String, Property>` backing store is embedded as a key-sorted
association list with byte-lexicographic key order.  The property layer
(`Property`, `Parameter`, `Class`) and the date-time codec
(`DatePerhapsTime`) live in modules of the repository that are not part of
the available sources, so those definitions are modelled from the spec, as
their doc comments state.  Nondeterministic inputs of `fmt_write` (the
current instant used to synthesize `DTSTAMP`, the random identifier used to
synthesize `UID`) are passed in as explicit arguments.
-/

namespace Icalendar

/-- Modelled from the spec: `Parameter` (from the missing `properties`
module) is a named value attached to a property: `{ name, value }`. -/
structure Parameter where
  name : String
  value : String
deriving DecidableEq

/-- Modelled from the spec: `Parameter::new(name, value)` stores both
strings verbatim. -/
def Parameter.new (name value : String) : Parameter := ⟨name, value⟩

/-- Modelled from the spec: `Property` (from the missing `properties`
module) is `{ key, value, parameters }` with the parameter order of
attachment preserved. -/
structure Property where
  key : String
  value : String
  parameters : List Parameter
deriving DecidableEq

/-- Modelled from the spec: `Property::new(key, value)` stores key and value
verbatim with no parameters. -/
def Property.new (key value : String) : Property := ⟨key, value, []⟩

/-- Modelled from the spec: `Property::append_parameter` appends to the
ordered parameter list, duplicates retained. -/
def Property.append_parameter (p : Property) (param : Parameter) : Property :=
  { p with parameters := p.parameters ++ [param] }

/-- Modelled from the spec: `Property::done` ends the property builder
chain, yielding the accumulated property. -/
def Property.done (p : Property) : Property := p

/-- Modelled from the spec: parameter lookup by name (first match in
attachment order), as used by the date-time decoder. -/
def paramValue (name : String) (params : List Parameter) : Option String :=
  (params.find? (fun q => q.name == name)).map Parameter.value

/-- Modelled from the spec: the closed visibility vocabulary
Public/Private/Confidential. -/
inductive Class where
  | Public
  | Private
  | Confidential
deriving DecidableEq

/-- Modelled from the spec: the fixed string encoding of `Class`, stored
under the `CLASS` key. -/
def Class.toProperty : Class → Property
  | .Public => Property.new "CLASS" "PUBLIC"
  | .Private => Property.new "CLASS" "PRIVATE"
  | .Confidential => Property.new "CLASS" "CONFIDENTIAL"

/-- Modelled from the spec: decoding a stored class string; anything outside
the recognized vocabulary yields `none`. -/
def Class.from_str (s : String) : Option Class :=
  if s = "PUBLIC" then some .Public
  else if s = "PRIVATE" then some .Private
  else if s = "CONFIDENTIAL" then some .Confidential
  else none

/-! ### Date and time values (second-level granularity, as in the spec) -/

/-- A calendar date, standing in for `chrono::NaiveDate`. -/
structure NaiveDate where
  year : Nat
  month : Nat
  day : Nat
deriving DecidableEq

/-- A local date-time with second granularity, standing in for
`chrono::NaiveDateTime` (and, for the UTC variant, `DateTime<Utc>`). -/
structure NaiveDateTime where
  date : NaiveDate
  hour : Nat
  minute : Nat
  second : Nat
deriving DecidableEq

/-- Calendar-validity of a date as guaranteed by `chrono::NaiveDate`,
restricted to four-digit years as the `YYYYMMDD` text form presumes. -/
abbrev NaiveDate.Valid (d : NaiveDate) : Prop :=
  d.year ≤ 9999 ∧ 1 ≤ d.month ∧ d.month ≤ 12 ∧ 1 ≤ d.day ∧ d.day ≤ 31

/-- Calendar-validity of a date-time value. -/
abbrev NaiveDateTime.Valid (dt : NaiveDateTime) : Prop :=
  dt.date.Valid ∧ dt.hour ≤ 23 ∧ dt.minute ≤ 59 ∧ dt.second ≤ 59

/-- The decimal digit character for `n % 10`-style arguments. -/
def digitToChar (n : Nat) : Char := Char.ofNat (48 + n)

/-- Inverse of `digitToChar` on `'0'`–`'9'`; `none` on any other char. -/
def charToDigit (c : Char) : Option Nat :=
  if '0' ≤ c ∧ c ≤ '9' then some (c.toNat - 48) else none

/-- Zero-padded four-digit rendering, as in chrono format code `%Y`. -/
def pad4 (n : Nat) : List Char :=
  [digitToChar (n / 1000), digitToChar (n / 100 % 10),
   digitToChar (n / 10 % 10), digitToChar (n % 10)]

/-- Zero-padded two-digit rendering, as in chrono format codes `%m`, `%d`,
`%H`, `%M`, `%S`. -/
def pad2 (n : Nat) : List Char :=
  [digitToChar (n / 10), digitToChar (n % 10)]

/-- The characters of the `YYYYMMDD` date form. -/
def dateChars (d : NaiveDate) : List Char :=
  pad4 d.year ++ pad2 d.month ++ pad2 d.day

/-- The characters of the `YYYYMMDDTHHMMSS` naive date-time form. -/
def dateTimeChars (dt : NaiveDateTime) : List Char :=
  dateChars dt.date ++ 'T' :: (pad2 dt.hour ++ pad2 dt.minute ++ pad2 dt.second)

/-- Modelled from the spec: the `YYYYMMDD` date rendering (chrono
`%Y%m%d`), used for `VALUE=DATE` properties. -/
def formatNaiveDate (d : NaiveDate) : String := ⟨dateChars d⟩

/-- Modelled from the spec: the `YYYYMMDDTHHMMSS` floating date-time
rendering (chrono `%Y%m%dT%H%M%S`). -/
def formatNaiveDateTime (dt : NaiveDateTime) : String := ⟨dateTimeChars dt⟩

/-- Modelled from the spec: `format_utc_date_time` (from the missing
`date_time` module) renders a UTC instant as `YYYYMMDDTHHMMSSZ`. -/
def format_utc_date_time (dt : NaiveDateTime) : String := ⟨dateTimeChars dt ++ ['Z']⟩

/-- Modelled from the spec: parsing the eight-character `YYYYMMDD` date
form; `none` on anything else. -/
def parseNaiveDate (s : String) : Option NaiveDate :=
  match s.data with
  | [y1, y2, y3, y4, m1, m2, d1, d2] => do
    let a ← charToDigit y1
    let b ← charToDigit y2
    let c ← charToDigit y3
    let d ← charToDigit y4
    let e ← charToDigit m1
    let f ← charToDigit m2
    let g ← charToDigit d1
    let h ← charToDigit d2
    some ⟨1000 * a + 100 * b + 10 * c + d, 10 * e + f, 10 * g + h⟩
  | _ => none

/-- Modelled from the spec: parsing the fifteen-character
`YYYYMMDDTHHMMSS` naive date-time form; `none` on anything else. -/
def parseNaiveDateTime (s : String) : Option NaiveDateTime :=
  match s.data with
  | [y1, y2, y3, y4, m1, m2, d1, d2, 'T', h1, h2, mi1, mi2, s1, s2] => do
    let a ← charToDigit y1
    let b ← charToDigit y2
    let c ← charToDigit y3
    let d ← charToDigit y4
    let e ← charToDigit m1
    let f ← charToDigit m2
    let g ← charToDigit d1
    let h ← charToDigit d2
    let ha ← charToDigit h1
    let hb ← charToDigit h2
    let ma ← charToDigit mi1
    let mb ← charToDigit mi2
    let sa ← charToDigit s1
    let sb ← charToDigit s2
    some ⟨⟨1000 * a + 100 * b + 10 * c + d, 10 * e + f, 10 * g + h⟩,
          10 * ha + hb, 10 * ma + mb, 10 * sa + sb⟩
  | _ => none

/-- Modelled from the spec: `DatePerhapsTime`, the tagged union over the
four date/time shapes (date-only, floating, UTC, timezone-qualified). -/
inductive DatePerhapsTime where
  | dateOnly (date : NaiveDate)
  | floating (dt : NaiveDateTime)
  | utc (dt : NaiveDateTime)
  | zoned (dt : NaiveDateTime) (tzid : String)
deriving DecidableEq

/-- Calendar-validity of the payload of a `DatePerhapsTime` value. -/
abbrev DatePerhapsTime.Valid : DatePerhapsTime → Prop
  | .dateOnly d => d.Valid
  | .floating dt => dt.Valid
  | .utc dt => dt.Valid
  | .zoned dt _ => dt.Valid

/-- Modelled from the spec: `naive_date_to_property` (from the missing
`date_time` module) renders a date as `VALUE=DATE:YYYYMMDD` under the given
key. -/
def naive_date_to_property (date : NaiveDate) (key : String) : Property :=
  ⟨key, formatNaiveDate date, [⟨"VALUE", "DATE"⟩]⟩

/-- Modelled from the spec: `DatePerhapsTime::to_property` — date-only as
`VALUE=DATE:YYYYMMDD`, floating as `YYYYMMDDTHHMMSS`, UTC as
`YYYYMMDDTHHMMSSZ`, timezone-qualified as `TZID=<tzid>:YYYYMMDDTHHMMSS`. -/
def DatePerhapsTime.to_property : DatePerhapsTime → String → Property
  | .dateOnly d, key => naive_date_to_property d key
  | .floating dt, key => ⟨key, formatNaiveDateTime dt, []⟩
  | .utc dt, key => ⟨key, format_utc_date_time dt, []⟩
  | .zoned dt tzid, key => ⟨key, formatNaiveDateTime dt, [⟨"TZID", tzid⟩]⟩

/-- Modelled from the spec: `DatePerhapsTime::from_property` inspects the
`VALUE` parameter, the `TZID` parameter and a trailing `Z` to select the
variant; unrecognized text yields `none`. -/
def DatePerhapsTime.from_property (p : Property) : Option DatePerhapsTime :=
  if paramValue "VALUE" p.parameters = some "DATE" then
    (parseNaiveDate p.value).map .dateOnly
  else
    match paramValue "TZID" p.parameters with
    | some tzid => (parseNaiveDateTime p.value).map (fun dt => .zoned dt tzid)
    | none =>
      if p.value.data.getLast? = some 'Z' then
        (parseNaiveDateTime ⟨p.value.data.dropLast⟩).map .utc
      else
        (parseNaiveDateTime p.value).map .floating

/-! ### Component storage: `InnerComponent` from `src/components.rs` -/

/-- Byte-lexicographic comparison on character lists; for UTF-8 encoded
strings this agrees with the byte order `BTreeMap<String, _>` sorts by. -/
def charsLt : List Char → List Char → Bool
  | [], [] => false
  | [], _ :: _ => true
  | _ :: _, [] => false
  | a :: as, b :: bs => if a < b then true else if a = b then charsLt as bs else false

/-- Key order of the `BTreeMap<String, Property>` backing store. -/
def keyLt (a b : String) : Bool := charsLt a.data b.data

/-- Insertion into the key-sorted association list embedding
`BTreeMap::insert`: an existing entry under the same key is replaced. -/
def insertSorted (k : String) (v : Property) :
    List (String × Property) → List (String × Property)
  | [] => [(k, v)]
  | (k', v') :: t =>
    if keyLt k k' then (k, v) :: (k', v') :: t
    else if k = k' then (k, v) :: t
    else (k', v') :: insertSorted k v t

/-- `BTreeMap::get` on the association list embedding. -/
def lookupKey (k : String) : List (String × Property) → Option Property
  | [] => none
  | (k', v') :: t => if k = k' then some v' else lookupKey k t

/-- `BTreeMap::contains_key` on the association list embedding. -/
def containsKey (k : String) (l : List (String × Property)) : Bool :=
  (lookupKey k l).isSome

/-- The head key of the list is a strict lower bound for key `x`. -/
def keyLB (x : String) : List (String × Property) → Bool
  | [] => true
  | a :: _ => keyLt x a.1

/-- The association list is strictly sorted by key — the `BTreeMap`
representation invariant. -/
def sortedKeys : List (String × Property) → Bool
  | [] => true
  | a :: t => keyLB a.1 t && sortedKeys t

/-- How many entries the map holds under key `k`. -/
def countKey (k : String) (l : List (String × Property)) : Nat :=
  (l.filter (fun kv => kv.1 == k)).length

/-- `InnerComponent` from `src/components.rs`: the single-valued property
map plus the ordered multi-valued property list. -/
structure InnerComponent where
  properties : List (String × Property)
  multi_properties : List Property
deriving DecidableEq

/-- The `Default` (empty) `InnerComponent`. -/
def InnerComponent.default : InnerComponent := ⟨[], []⟩

/-- `InnerComponent::done` from `src/components.rs`: `mem::take` of both
fields — returns the accumulated state paired with the reset original. -/
def InnerComponent.done (c : InnerComponent) : InnerComponent × InnerComponent :=
  (⟨c.properties, c.multi_properties⟩, InnerComponent.default)

/-! ### The `Component` trait surface from `src/components.rs`,
as explicit state-passing functions on `InnerComponent`. -/

/-- `append_property` from the `component_impl!` macro: inserts into the
`properties` map under the property's own key. -/
def append_property (c : InnerComponent) (p : Property) : InnerComponent :=
  { c with properties := insertSorted p.key p c.properties }

/-- `append_multi_property` from the `component_impl!` macro: pushes onto
the `multi_properties` vector. -/
def append_multi_property (c : InnerComponent) (p : Property) : InnerComponent :=
  { c with multi_properties := c.multi_properties ++ [p] }

/-- `Component::add_property`. -/
def add_property (c : InnerComponent) (key val : String) : InnerComponent :=
  append_property c (Property.new key val)

/-- `Component::add_multi_property`. -/
def add_multi_property (c : InnerComponent) (key val : String) : InnerComponent :=
  append_multi_property c (Property.new key val)

/-- `Component::property_value`. -/
def property_value (c : InnerComponent) (key : String) : Option String :=
  (lookupKey key c.properties).map Property.value

/-- `Component::summary`. -/
def summary (c : InnerComponent) (desc : String) : InnerComponent :=
  add_property c "SUMMARY" desc

/-- `Component::get_summary`. -/
def get_summary (c : InnerComponent) : Option String :=
  property_value c "SUMMARY"

/-- `Component::description`. -/
def description (c : InnerComponent) (desc : String) : InnerComponent :=
  add_property c "DESCRIPTION" desc

/-- `Component::location`. -/
def location (c : InnerComponent) (loc : String) : InnerComponent :=
  add_property c "LOCATION" loc

/-- `Component::venue`: a `LOCATION` property carrying a `VVENUE`
parameter, inserted through `append_property`. -/
def venue (c : InnerComponent) (loc venue_uid : String) : InnerComponent :=
  append_property c
    (((Property.new "LOCATION" loc).append_parameter
        (Parameter.new "VVENUE" venue_uid)).done)

/-- `Component::uid`. -/
def uid (c : InnerComponent) (u : String) : InnerComponent :=
  add_property c "UID" u

/-- `Component::class` (named `setClass` here because `class` is a Lean
keyword). -/
def setClass (c : InnerComponent) (cls : Class) : InnerComponent :=
  append_property c cls.toProperty

/-- `Component::get_class`. -/
def get_class (c : InnerComponent) : Option Class :=
  (property_value c "CLASS").bind Class.from_str

/-- `Component::url`. -/
def url (c : InnerComponent) (u : String) : InnerComponent :=
  add_property c "URL" u

/-- `Component::priority`: clamps to 10, stores the decimal string. The
`u32` argument is embedded as a `Nat`. -/
def priority (c : InnerComponent) (prio : Nat) : InnerComponent :=
  add_property c "PRIORITY" (Nat.repr (Nat.min prio 10))

/-- Digit accumulator of the standard-library `u32` decimal parser. -/
def parseDigitsAux : Nat → List Char → Option Nat
  | acc, [] => some acc
  | acc, c :: t =>
    match charToDigit c with
    | some d => parseDigitsAux (10 * acc + d) t
    | none => none

/-- At least one digit required. -/
def parseDigits : List Char → Option Nat
  | [] => none
  | l => parseDigitsAux 0 l

/-- `str::parse::<u32>` from the Rust standard library: optional leading
`+`, at least one decimal digit, value below `2^32`. -/
def parseU32 (s : String) : Option Nat := do
  let n ← (match s.data with
    | [] => none
    | '+' :: rest => parseDigits rest
    | l => parseDigits l)
  if n < 4294967296 then some n else none

/-- `Component::get_priority`: parses the stored `PRIORITY` string,
discarding parse failures and values above 10. -/
def get_priority (c : InnerComponent) : Option Nat := do
  let p ← (property_value c "PRIORITY").bind parseU32
  if p ≤ 10 then some p else none

/-- `Component::starts`. -/
def starts (c : InnerComponent) (dt : DatePerhapsTime) : InnerComponent :=
  append_property c (dt.to_property "DTSTART")

/-- `Component::ends`. -/
def ends (c : InnerComponent) (dt : DatePerhapsTime) : InnerComponent :=
  append_property c (dt.to_property "DTEND")

/-- `Component::recurrence_id`. -/
def recurrence_id (c : InnerComponent) (dt : DatePerhapsTime) : InnerComponent :=
  append_property c (dt.to_property "RECURRENCE-ID")

/-- `Component::exdate`. -/
def exdate (c : InnerComponent) (dt : DatePerhapsTime) : InnerComponent :=
  append_multi_property c (dt.to_property "EXDATE")

/-- `Component::all_day`: date-only `DTSTART` and `DTEND` for the same
date. -/
def all_day (c : InnerComponent) (date : NaiveDate) : InnerComponent :=
  append_property (append_property c (naive_date_to_property date "DTSTART"))
    (naive_date_to_property date "DTEND")

/-- `Component::get_start`. -/
def get_start (c : InnerComponent) : Option DatePerhapsTime :=
  (lookupKey "DTSTART" c.properties).bind DatePerhapsTime.from_property

/-- `Component::get_end`. -/
def get_end (c : InnerComponent) : Option DatePerhapsTime :=
  (lookupKey "DTEND" c.properties).bind DatePerhapsTime.from_property

/-- `Component::get_recurrence_id`. -/
def get_recurrence_id (c : InnerComponent) : Option DatePerhapsTime :=
  (lookupKey "RECURRENCE-ID" c.properties).bind DatePerhapsTime.from_property

/-- `Component::get_exdates`: the decodable `EXDATE` entries of
`multi_properties`, in stored order. -/
def get_exdates (c : InnerComponent) : List DatePerhapsTime :=
  (c.multi_properties.filter (fun p => p.key == "EXDATE")).filterMap
    DatePerhapsTime.from_property

/-! ### Serialization: `Component::fmt_write` from `src/components.rs` -/

/-- The RFC 5545 line terminator appended by the `write_crlf!` macro. -/
def CRLF : String := "\r\n"

/-- Modelled from the spec: the parameter list segment of a rendered
property line, `;PARAM=VALUE` for each parameter in attachment order. -/
def renderParams : List Parameter → String
  | [] => ""
  | q :: qs => ";" ++ q.name ++ "=" ++ q.value ++ renderParams qs

/-- Modelled from the spec: `Property::fmt_write` renders one
`KEY[;PARAM=VALUE...]:VALUE` line (terminator added by the caller side
here). -/
def renderProperty (p : Property) : String :=
  p.key ++ renderParams p.parameters ++ ":" ++ p.value

/-- Concatenation of rendered fragments, embedding the sequential
`write!` calls into one output string. -/
def concatStrs : List String → String
  | [] => ""
  | s :: t => s ++ concatStrs t

/-- `Component::fmt_write` from `src/components.rs`, with the component
kind, the current UTC instant (used when `DTSTAMP` is absent) and the
freshly generated identifier (used when `UID` is absent) passed
explicitly. -/
def fmt_write (kind : String) (c : InnerComponent) (now : NaiveDateTime)
    (newUid : String) : String :=
  "BEGIN:" ++ kind ++ CRLF
  ++ (if containsKey "DTSTAMP" c.properties then ""
      else "DTSTAMP:" ++ format_utc_date_time now ++ CRLF)
  ++ concatStrs (c.properties.map (fun kv => renderProperty kv.2 ++ CRLF))
  ++ (if containsKey "UID" c.properties then ""
      else "UID:" ++ newUid ++ CRLF)
  ++ concatStrs (c.multi_properties.map (fun p => renderProperty p ++ CRLF))
  ++ "END:" ++ kind ++ CRLF

/-- The individual lines (without terminators) emitted by `fmt_write`, in
emission order. -/
def fmtLines (kind : String) (c : InnerComponent) (now : NaiveDateTime)
    (newUid : String) : List String :=
  ["BEGIN:" ++ kind]
  ++ (if containsKey "DTSTAMP" c.properties then []
      else ["DTSTAMP:" ++ format_utc_date_time now])
  ++ c.properties.map (fun kv => renderProperty kv.2)
  ++ (if containsKey "UID" c.properties then [] else ["UID:" ++ newUid])
  ++ c.multi_properties.map renderProperty
  ++ ["END:" ++ kind]

/-- The key of an output line: everything before the first `:` or `;`. -/
def lineKey (s : String) : String :=
  ⟨s.data.takeWhile (fun ch => !(ch == ':') && !(ch == ';'))⟩

/-- How many lines of the list carry the given line key. -/
def countKeyLines (k : String) (lines : List String) : Nat :=
  (lines.filter (fun ln => lineKey ln == k)).length

/-- A key free of the `:` and `;` line-syntax delimiters. -/
def cleanKey (k : String) : Bool :=
  k.data.all (fun ch => !(ch == ':') && !(ch == ';'))

/-- A line free of carriage returns and line feeds. -/
def cleanLine (s : String) : Bool :=
  s.data.all (fun ch => !(ch == '\r') && !(ch == '\n'))

/-- Scan for a line feed not immediately preceded by a carriage return;
`prev` is the previously scanned character. -/
def noBareLFAux (prev : Char) : List Char → Bool
  | [] => true
  | c :: t => (!(c == '\n') || (prev == '\r')) && noBareLFAux c t

/-- No bare line feed anywhere: every `\n` is immediately preceded by
`\r`. -/
def noBareLF (l : List Char) : Bool := noBareLFAux 'x' l

/-! ### Lemmas about the key order and the sorted map -/

/-! ### Lemmas about the key order and the sorted map -/

theorem charsLt_irrefl (l : List Char) : charsLt l l = false := by
  induction l with
  | nil => rfl
  | cons a t ih => simp [charsLt, ih]

theorem charsLt_asymm {a b : List Char} (h : charsLt a b = false) (hne : a ≠ b) :
    charsLt b a = true := by
  induction a generalizing b with
  | nil =>
    cases b with
    | nil => exact absurd rfl hne
    | cons x xs => simp [charsLt] at h
  | cons x xs ih =>
    cases b with
    | nil => rfl
    | cons y ys =>
      simp only [charsLt] at h ⊢
      by_cases hxy : x < y
      · simp [hxy] at h
      · by_cases hxy2 : x = y
        · subst hxy2
          simp only [if_neg (lt_irrefl x), if_pos rfl] at h ⊢
          exact ih h (fun he => hne (by rw [he]))
        · have hyx : y < x := lt_of_le_of_ne (le_of_not_lt hxy) (Ne.symm hxy2)
          simp [hyx]

theorem charsLt_trans {a b c : List Char} (h₁ : charsLt a b = true)
    (h₂ : charsLt b c = true) : charsLt a c = true := by
  induction a generalizing b c with
  | nil =>
    cases b with
    | nil => simp [charsLt] at h₁
    | cons y ys =>
      cases c with
      | nil => simp [charsLt] at h₂
      | cons z zs => rfl
  | cons x xs ih =>
    cases b with
    | nil => simp [charsLt] at h₁
    | cons y ys =>
      cases c with
      | nil => simp [charsLt] at h₂
      | cons z zs =>
        simp only [charsLt] at h₁ h₂ ⊢
        by_cases hxy : x < y
        · by_cases hyz : y < z
          · simp [lt_trans hxy hyz]
          · by_cases hyz2 : y = z
            · subst hyz2; simp [hxy]
            · simp [hyz, hyz2] at h₂
        · by_cases hxy2 : x = y
          · subst hxy2
            by_cases hxz : x < z
            · simp [hxz]
            · by_cases hxz2 : x = z
              · subst hxz2
                simp only [if_neg (lt_irrefl x), if_pos rfl] at h₁ h₂ ⊢
                exact ih h₁ h₂
              · simp [hxz, hxz2] at h₂
          · simp [hxy, hxy2] at h₁

theorem keyLt_irrefl (k : String) : keyLt k k = false := charsLt_irrefl k.data

theorem string_eq_of_data_eq {a b : String} (h : a.data = b.data) : a = b := by
  cases a
  cases b
  exact congrArg String.mk h

theorem keyLt_asymm {a b : String} (h : keyLt a b = false) (hne : a ≠ b) :
    keyLt b a = true :=
  charsLt_asymm h (fun he => hne (string_eq_of_data_eq he))

theorem keyLt_trans {a b c : String} (h₁ : keyLt a b = true)
    (h₂ : keyLt b c = true) : keyLt a c = true :=
  charsLt_trans h₁ h₂

theorem ne_of_keyLt {a b : String} (h : keyLt a b = true) : a ≠ b := by
  intro he
  subst he
  rw [keyLt_irrefl] at h
  exact Bool.false_ne_true h

theorem insertSorted_nil (k : String) (v : Property) :
    insertSorted k v [] = [(k, v)] := rfl

theorem insertSorted_cons (k : String) (v : Property) (k' : String) (v' : Property)
    (t : List (String × Property)) :
    insertSorted k v ((k', v') :: t) =
      if keyLt k k' then (k, v) :: (k', v') :: t
      else if k = k' then (k, v) :: t
      else (k', v') :: insertSorted k v t := rfl

theorem lookupKey_cons (k k' : String) (v' : Property) (t : List (String × Property)) :
    lookupKey k ((k', v') :: t) = if k = k' then some v' else lookupKey k t := rfl

theorem sortedKeys_cons (a : String × Property) (t : List (String × Property)) :
    sortedKeys (a :: t) = (keyLB a.1 t && sortedKeys t) := rfl

theorem lookupKey_insertSorted_self (k : String) (v : Property) :
    ∀ l, lookupKey k (insertSorted k v l) = some v := by
  intro l
  induction l with
  | nil => simp [insertSorted_nil, lookupKey_cons]
  | cons a t ih =>
    obtain ⟨k', v'⟩ := a
    rw [insertSorted_cons]
    by_cases h1 : keyLt k k'
    · rw [if_pos h1, lookupKey_cons, if_pos rfl]
    · rw [if_neg h1]
      by_cases h2 : k = k'
      · rw [if_pos h2, lookupKey_cons, if_pos rfl]
      · rw [if_neg h2, lookupKey_cons, if_neg h2]
        exact ih

theorem lookupKey_insertSorted_ne {k k' : String} (v : Property)
    (hne : k' ≠ k) : ∀ l, lookupKey k' (insertSorted k v l) = lookupKey k' l := by
  intro l
  induction l with
  | nil => simp [insertSorted_nil, lookupKey_cons, hne, lookupKey]
  | cons a t ih =>
    obtain ⟨ka, va⟩ := a
    rw [insertSorted_cons]
    by_cases h1 : keyLt k ka
    · rw [if_pos h1, lookupKey_cons, if_neg hne]
    · rw [if_neg h1]
      by_cases h2 : k = ka
      · subst h2
        rw [if_pos rfl, lookupKey_cons, if_neg hne, lookupKey_cons, if_neg hne]
      · rw [if_neg h2, lookupKey_cons, lookupKey_cons, ih]

theorem insertSorted_insertSorted_same (k : String) (v₁ v₂ : Property) :
    ∀ l, insertSorted k v₂ (insertSorted k v₁ l) = insertSorted k v₂ l := by
  intro l
  induction l with
  | nil =>
    rw [insertSorted_nil, insertSorted_cons, if_neg, if_pos rfl, insertSorted_nil]
    rw [keyLt_irrefl]
    exact Bool.false_ne_true
  | cons a t ih =>
    obtain ⟨k', v'⟩ := a
    by_cases h1 : keyLt k k'
    · rw [insertSorted_cons, if_pos h1, insertSorted_cons, if_neg, if_pos rfl,
        insertSorted_cons, if_pos h1]
      rw [keyLt_irrefl]
      exact Bool.false_ne_true
    · by_cases h2 : k = k'
      · rw [insertSorted_cons, if_neg h1, if_pos h2, insertSorted_cons, if_neg, if_pos rfl,
          insertSorted_cons, if_neg h1, if_pos h2]
        rw [keyLt_irrefl]
        exact Bool.false_ne_true
      · rw [insertSorted_cons, if_neg h1, if_neg h2, insertSorted_cons, if_neg h1, if_neg h2,
          insertSorted_cons, if_neg h1, if_neg h2, ih]

theorem keyLB_insertSorted {x k : String} (v : Property) {l : List (String × Property)}
    (h₁ : keyLt x k = true) (h₂ : keyLB x l = true) :
    keyLB x (insertSorted k v l) = true := by
  cases l with
  | nil => exact h₁
  | cons a t =>
    obtain ⟨k', v'⟩ := a
    rw [insertSorted_cons]
    by_cases hc1 : keyLt k k'
    · rw [if_pos hc1]; exact h₁
    · rw [if_neg hc1]
      by_cases hc2 : k = k'
      · rw [if_pos hc2]; exact h₁
      · rw [if_neg hc2]; exact h₂

theorem sortedKeys_insertSorted (k : String) (v : Property) :
    ∀ l, sortedKeys l = true → sortedKeys (insertSorted k v l) = true := by
  intro l
  induction l with
  | nil => intro _; rfl
  | cons a t ih =>
    intro hs
    obtain ⟨k', v'⟩ := a
    rw [sortedKeys_cons, Bool.and_eq_true] at hs
    obtain ⟨hlb, hst⟩ := hs
    rw [insertSorted_cons]
    by_cases h1 : keyLt k k'
    · rw [if_pos h1, sortedKeys_cons, sortedKeys_cons, Bool.and_eq_true, Bool.and_eq_true]
      exact ⟨h1, hlb, hst⟩
    · rw [if_neg h1]
      by_cases h2 : k = k'
      · subst h2
        rw [if_pos rfl, sortedKeys_cons, Bool.and_eq_true]
        exact ⟨hlb, hst⟩
      · rw [if_neg h2, sortedKeys_cons, Bool.and_eq_true]
        exact ⟨keyLB_insertSorted v (keyLt_asymm (Bool.eq_false_iff.mpr h1) h2) hlb, ih hst⟩

theorem countKey_nil (k : String) : countKey k [] = 0 := rfl

theorem countKey_cons (k : String) (a : String × Property) (t : List (String × Property)) :
    countKey k (a :: t) = (if a.1 = k then 1 else 0) + countKey k t := by
  simp only [countKey, List.filter_cons]
  by_cases h : a.1 = k
  · have hb : (a.1 == k) = true := beq_iff_eq.mpr h
    rw [hb, if_pos rfl, if_pos h, List.length_cons]
    omega
  · have hb : (a.1 == k) = false := beq_eq_false_iff_ne.mpr h
    rw [hb, if_neg Bool.false_ne_true, if_neg h]
    omega

theorem keyLB_of_keyLt_head {x k : String} {t : List (String × Property)}
    (hlb : keyLB k t = true) (hxk : keyLt x k = true) : keyLB x t = true := by
  cases t with
  | nil => rfl
  | cons b t' => exact keyLt_trans hxk hlb

theorem countKey_eq_zero_of_lb {x : String} :
    ∀ {l}, sortedKeys l = true → keyLB x l = true → countKey x l = 0 := by
  intro l
  induction l with
  | nil => intro _ _; rfl
  | cons a t ih =>
    intro hs hlb
    obtain ⟨k', v'⟩ := a
    rw [sortedKeys_cons, Bool.and_eq_true] at hs
    obtain ⟨hlb', hst⟩ := hs
    have hxk : keyLt x k' = true := hlb
    rw [countKey_cons, if_neg (fun he => ne_of_keyLt hxk he.symm), Nat.zero_add]
    exact ih hst (keyLB_of_keyLt_head hlb' hxk)

theorem countKey_insertSorted (k : String) (v : Property) :
    ∀ l, sortedKeys l = true → countKey k (insertSorted k v l) = 1 := by
  intro l
  induction l with
  | nil =>
    intro _
    rw [insertSorted_nil, countKey_cons, if_pos rfl, countKey_nil]
  | cons a t ih =>
    intro hs
    obtain ⟨k', v'⟩ := a
    have hs' := hs
    rw [sortedKeys_cons, Bool.and_eq_true] at hs'
    obtain ⟨hlb, hst⟩ := hs'
    rw [insertSorted_cons]
    by_cases h1 : keyLt k k'
    · rw [if_pos h1, countKey_cons, if_pos rfl, countKey_eq_zero_of_lb hs h1]
    · rw [if_neg h1]
      by_cases h2 : k = k'
      · subst h2
        rw [if_pos rfl, countKey_cons, if_pos rfl, countKey_eq_zero_of_lb hst hlb]
      · rw [if_neg h2, countKey_cons, if_neg (fun he => h2 he.symm), Nat.zero_add]
        exact ih hst

theorem countKey_le_one {l : List (String × Property)} (hs : sortedKeys l = true)
    (k : String) : countKey k l ≤ 1 := by
  induction l with
  | nil => exact Nat.zero_le 1
  | cons a t ih =>
    obtain ⟨k', v'⟩ := a
    rw [sortedKeys_cons, Bool.and_eq_true] at hs
    obtain ⟨hlb, hst⟩ := hs
    rw [countKey_cons]
    by_cases h : k' = k
    · subst h
      rw [if_pos rfl, countKey_eq_zero_of_lb hst hlb]
    · rw [if_neg h, Nat.zero_add]
      exact ih hst

/-! ### Lemmas about the date-time codec -/

theorem charToDigit_digitToChar : ∀ n, n < 10 → charToDigit (digitToChar n) = some n := by
  decide

theorem digitToChar_ne_Z : ∀ n, n < 10 → ¬ digitToChar n = 'Z' := by
  decide

theorem parseNaiveDate_format {d : NaiveDate} (h : d.Valid) :
    parseNaiveDate (formatNaiveDate d) = some d := by
  obtain ⟨y, m, dd⟩ := d
  obtain ⟨hy, hm1, hm2, hd1, hd2⟩ := h
  simp only at hy hm1 hm2 hd1 hd2
  have c1 := charToDigit_digitToChar (y / 1000) (by omega)
  have c2 := charToDigit_digitToChar (y / 100 % 10) (by omega)
  have c3 := charToDigit_digitToChar (y / 10 % 10) (by omega)
  have c4 := charToDigit_digitToChar (y % 10) (by omega)
  have c5 := charToDigit_digitToChar (m / 10) (by omega)
  have c6 := charToDigit_digitToChar (m % 10) (by omega)
  have c7 := charToDigit_digitToChar (dd / 10) (by omega)
  have c8 := charToDigit_digitToChar (dd % 10) (by omega)
  simp only [parseNaiveDate, formatNaiveDate, dateChars, pad4, pad2, List.cons_append,
    List.nil_append, c1, c2, c3, c4, c5, c6, c7, c8, Option.bind_eq_bind,
    Option.some_bind, Option.some.injEq, NaiveDate.mk.injEq]
  omega

theorem parseNaiveDateTime_format {dt : NaiveDateTime} (h : dt.Valid) :
    parseNaiveDateTime (formatNaiveDateTime dt) = some dt := by
  obtain ⟨⟨y, m, dd⟩, hh, mi, ss⟩ := dt
  obtain ⟨⟨hy, hm1, hm2, hd1, hd2⟩, hhh, hmi, hss⟩ := h
  simp only at hy hm1 hm2 hd1 hd2 hhh hmi hss
  have c1 := charToDigit_digitToChar (y / 1000) (by omega)
  have c2 := charToDigit_digitToChar (y / 100 % 10) (by omega)
  have c3 := charToDigit_digitToChar (y / 10 % 10) (by omega)
  have c4 := charToDigit_digitToChar (y % 10) (by omega)
  have c5 := charToDigit_digitToChar (m / 10) (by omega)
  have c6 := charToDigit_digitToChar (m % 10) (by omega)
  have c7 := charToDigit_digitToChar (dd / 10) (by omega)
  have c8 := charToDigit_digitToChar (dd % 10) (by omega)
  have c9 := charToDigit_digitToChar (hh / 10) (by omega)
  have c10 := charToDigit_digitToChar (hh % 10) (by omega)
  have c11 := charToDigit_digitToChar (mi / 10) (by omega)
  have c12 := charToDigit_digitToChar (mi % 10) (by omega)
  have c13 := charToDigit_digitToChar (ss / 10) (by omega)
  have c14 := charToDigit_digitToChar (ss % 10) (by omega)
  simp only [parseNaiveDateTime, formatNaiveDateTime, dateTimeChars, dateChars, pad4, pad2,
    List.cons_append, List.nil_append, c1, c2, c3, c4, c5, c6, c7, c8, c9, c10, c11, c12,
    c13, c14, Option.bind_eq_bind, Option.some_bind, Option.some.injEq,
    NaiveDateTime.mk.injEq, NaiveDate.mk.injEq]
  omega

theorem dateTimeChars_getLast?_ne_Z (dt : NaiveDateTime) :
    ¬ (dateTimeChars dt).getLast? = some 'Z' := by
  intro hc
  have : (dateTimeChars dt).getLast? = some (digitToChar (dt.second % 10)) := by
    simp only [dateTimeChars, dateChars, pad4, pad2, List.cons_append, List.nil_append,
      List.getLast?_cons_cons, List.getLast?_singleton]
  rw [this] at hc
  exact digitToChar_ne_Z (dt.second % 10) (by omega) (by injection hc)

theorem paramValue_nil (n : String) : paramValue n [] = none := rfl

theorem paramValue_value_date :
    paramValue "VALUE" [⟨"VALUE", "DATE"⟩] = some "DATE" := rfl

theorem paramValue_value_of_tzid (tzid : String) :
    paramValue "VALUE" [⟨"TZID", tzid⟩] = none := rfl

theorem paramValue_tzid_of_tzid (tzid : String) :
    paramValue "TZID" [⟨"TZID", tzid⟩] = some tzid := rfl

theorem formatNaiveDateTime_data (dt : NaiveDateTime) :
    (formatNaiveDateTime dt).data = dateTimeChars dt := rfl

theorem format_utc_date_time_data (dt : NaiveDateTime) :
    (format_utc_date_time dt).data = dateTimeChars dt ++ ['Z'] := rfl

theorem from_property_to_property {v : DatePerhapsTime} (hv : v.Valid) (key : String) :
    DatePerhapsTime.from_property (v.to_property key) = some v := by
  cases v with
  | dateOnly d =>
    simp only [DatePerhapsTime.to_property, naive_date_to_property,
      DatePerhapsTime.from_property, paramValue_value_date, if_true,
      parseNaiveDate_format hv, Option.map_some']
  | floating dt =>
    simp only [DatePerhapsTime.to_property, DatePerhapsTime.from_property, paramValue_nil,
      formatNaiveDateTime_data]
    rw [if_neg (by simp)]
    rw [if_neg (dateTimeChars_getLast?_ne_Z dt)]
    rw [parseNaiveDateTime_format hv, Option.map_some']
  | utc dt =>
    simp only [DatePerhapsTime.to_property, DatePerhapsTime.from_property, paramValue_nil,
      format_utc_date_time_data]
    rw [if_neg (by simp)]
    rw [if_pos (List.getLast?_concat _)]
    rw [List.dropLast_concat]
    rw [show (⟨dateTimeChars dt⟩ : String) = formatNaiveDateTime dt from rfl]
    rw [parseNaiveDateTime_format hv, Option.map_some']
  | zoned dt tzid =>
    simp only [DatePerhapsTime.to_property, DatePerhapsTime.from_property,
      paramValue_value_of_tzid, paramValue_tzid_of_tzid]
    rw [if_neg (by simp)]
    rw [parseNaiveDateTime_format hv, Option.map_some']

/-! ### Lemmas about rendering and line structure -/

theorem string_append_assoc (a b c : String) : (a ++ b) ++ c = a ++ (b ++ c) :=
  string_eq_of_data_eq (by simp [String.data_append, List.append_assoc])

theorem string_append_empty (a : String) : a ++ "" = a :=
  string_eq_of_data_eq (by simp [String.data_append])

theorem string_empty_append (a : String) : "" ++ a = a :=
  string_eq_of_data_eq (by simp [String.data_append])

theorem concatStrs_nil : concatStrs [] = "" := rfl

theorem concatStrs_cons (s : String) (t : List String) :
    concatStrs (s :: t) = s ++ concatStrs t := rfl

theorem concatStrs_append : ∀ l₁ l₂ : List String,
    concatStrs (l₁ ++ l₂) = concatStrs l₁ ++ concatStrs l₂ := by
  intro l₁ l₂
  induction l₁ with
  | nil => rw [List.nil_append, concatStrs_nil, string_empty_append]
  | cons s t ih =>
    rw [List.cons_append, concatStrs_cons, concatStrs_cons, ih, string_append_assoc]

theorem fmt_write_eq_concat (kind : String) (c : InnerComponent) (now : NaiveDateTime)
    (newUid : String) :
    fmt_write kind c now newUid =
      concatStrs ((fmtLines kind c now newUid).map (· ++ CRLF)) := by
  unfold fmt_write fmtLines
  by_cases h1 : containsKey "DTSTAMP" c.properties
  · by_cases h2 : containsKey "UID" c.properties
    · simp [h1, h2, List.map_append, concatStrs_append, concatStrs_cons, concatStrs_nil,
        List.map_map, Function.comp_def, string_append_assoc, string_append_empty,
        string_empty_append]
    · simp [h1, h2, List.map_append, concatStrs_append, concatStrs_cons, concatStrs_nil,
        List.map_map, Function.comp_def, string_append_assoc, string_append_empty,
        string_empty_append]
  · by_cases h2 : containsKey "UID" c.properties
    · simp [h1, h2, List.map_append, concatStrs_append, concatStrs_cons, concatStrs_nil,
        List.map_map, Function.comp_def, string_append_assoc, string_append_empty,
        string_empty_append]
    · simp [h1, h2, List.map_append, concatStrs_append, concatStrs_cons, concatStrs_nil,
        List.map_map, Function.comp_def, string_append_assoc, string_append_empty,
        string_empty_append]

theorem takeWhile_append_of_all {p : Char → Bool} :
    ∀ l₁ l₂ : List Char, (∀ c ∈ l₁, p c = true) →
      (l₁ ++ l₂).takeWhile p = l₁ ++ l₂.takeWhile p := by
  intro l₁ l₂ h
  induction l₁ with
  | nil => simp
  | cons a t ih =>
    simp only [List.cons_append, List.takeWhile_cons]
    rw [h a (by simp), ih (fun c hc => h c (by simp [hc]))]
    simp

theorem cleanKey_all {k : String} (h : cleanKey k = true) :
    ∀ ch ∈ k.data, (!(ch == ':') && !(ch == ';')) = true := by
  intro ch hch
  exact List.all_eq_true.mp h ch hch

theorem lineKey_key_colon (k rest : String) (h : cleanKey k = true) :
    lineKey (k ++ ":" ++ rest) = k := by
  apply string_eq_of_data_eq
  show ((k ++ ":" ++ rest).data.takeWhile _) = k.data
  have hd : (k ++ ":" ++ rest).data = k.data ++ ':' :: rest.data := by
    simp [String.data_append]
  rw [hd, takeWhile_append_of_all _ _ (cleanKey_all h), List.takeWhile_cons]
  simp

theorem lineKey_key_semicolon (k rest : String) (h : cleanKey k = true) :
    lineKey (k ++ ";" ++ rest) = k := by
  apply string_eq_of_data_eq
  show ((k ++ ";" ++ rest).data.takeWhile _) = k.data
  have hd : (k ++ ";" ++ rest).data = k.data ++ ';' :: rest.data := by
    simp [String.data_append]
  rw [hd, takeWhile_append_of_all _ _ (cleanKey_all h), List.takeWhile_cons]
  simp

theorem lineKey_renderProperty {p : Property} (h : cleanKey p.key = true) :
    lineKey (renderProperty p) = p.key := by
  cases hp : p.parameters with
  | nil =>
    have he : renderProperty p = p.key ++ ":" ++ p.value := by
      unfold renderProperty
      rw [hp]
      show p.key ++ renderParams [] ++ ":" ++ p.value = _
      apply string_eq_of_data_eq
      simp [String.data_append, renderParams]
    rw [he, lineKey_key_colon _ _ h]
  | cons q qs =>
    have he : renderProperty p =
        p.key ++ ";" ++ (q.name ++ "=" ++ q.value ++ renderParams qs ++ ":" ++ p.value) := by
      unfold renderProperty
      rw [hp]
      show p.key ++ renderParams (q :: qs) ++ ":" ++ p.value = _
      apply string_eq_of_data_eq
      simp [String.data_append, renderParams, List.append_assoc]
    rw [he, lineKey_key_semicolon _ _ h]

theorem lineKey_begin (kind : String) : lineKey ("BEGIN:" ++ kind) = "BEGIN" := by
  rw [show ("BEGIN:" : String) = "BEGIN" ++ ":" from rfl]
  exact lineKey_key_colon "BEGIN" kind (by decide)

theorem lineKey_end (kind : String) : lineKey ("END:" ++ kind) = "END" := by
  rw [show ("END:" : String) = "END" ++ ":" from rfl]
  exact lineKey_key_colon "END" kind (by decide)

theorem lineKey_dtstamp (s : String) : lineKey ("DTSTAMP:" ++ s) = "DTSTAMP" := by
  rw [show ("DTSTAMP:" : String) = "DTSTAMP" ++ ":" from rfl]
  exact lineKey_key_colon "DTSTAMP" s (by decide)

theorem lineKey_uid (s : String) : lineKey ("UID:" ++ s) = "UID" := by
  rw [show ("UID:" : String) = "UID" ++ ":" from rfl]
  exact lineKey_key_colon "UID" s (by decide)

theorem countKeyLines_nil (k : String) : countKeyLines k [] = 0 := rfl

theorem countKeyLines_append (k : String) (l₁ l₂ : List String) :
    countKeyLines k (l₁ ++ l₂) = countKeyLines k l₁ + countKeyLines k l₂ := by
  simp [countKeyLines, List.filter_append]

theorem countKeyLines_cons (k : String) (ln : String) (t : List String) :
    countKeyLines k (ln :: t) = (if lineKey ln = k then 1 else 0) + countKeyLines k t := by
  simp only [countKeyLines, List.filter_cons]
  by_cases h : lineKey ln = k
  · have hb : (lineKey ln == k) = true := beq_iff_eq.mpr h
    rw [hb, if_pos rfl, if_pos h, List.length_cons]
    omega
  · have hb : (lineKey ln == k) = false := beq_eq_false_iff_ne.mpr h
    rw [hb, if_neg Bool.false_ne_true, if_neg h]
    omega

theorem countKeyLines_map_eq_zero {k : String} {props : List (String × Property)}
    (hclean : ∀ kv ∈ props, cleanKey kv.2.key = true ∧ kv.2.key ≠ k) :
    countKeyLines k (props.map (fun kv => renderProperty kv.2)) = 0 := by
  induction props with
  | nil => rfl
  | cons a t ih =>
    rw [List.map_cons, countKeyLines_cons]
    have ha := hclean a (by simp)
    rw [lineKey_renderProperty ha.1, if_neg ha.2, Nat.zero_add]
    exact ih (fun kv hkv => hclean kv (by simp [hkv]))

theorem countKeyLines_multi_eq_zero {k : String} {props : List Property}
    (hclean : ∀ p ∈ props, cleanKey p.key = true ∧ p.key ≠ k) :
    countKeyLines k (props.map renderProperty) = 0 := by
  induction props with
  | nil => rfl
  | cons a t ih =>
    rw [List.map_cons, countKeyLines_cons]
    have ha := hclean a (by simp)
    rw [lineKey_renderProperty ha.1, if_neg ha.2, Nat.zero_add]
    exact ih (fun p hp => hclean p (by simp [hp]))

/-! ### Lemmas about line terminators -/

theorem cleanLine_all {s : String} (h : cleanLine s = true) :
    ∀ ch ∈ s.data, ¬ ch = '\n' ∧ ¬ ch = '\r' := by
  intro ch hch
  have := List.all_eq_true.mp h ch hch
  constructor
  · intro he
    subst he
    simp at this
  · intro he
    subst he
    simp at this

theorem noBareLFAux_clean_append (t : List Char) :
    ∀ (s : List Char) (prev : Char), (∀ c ∈ s, ¬ c = '\n' ∧ ¬ c = '\r') →
      noBareLFAux prev (s ++ t) = noBareLFAux (s.getLastD prev) t := by
  intro s
  induction s with
  | nil => intro prev _; rfl
  | cons c cs ih =>
    intro prev h
    have hc := h c (by simp)
    have hcb : (c == '\n') = false := beq_eq_false_iff_ne.mpr hc.1
    rw [List.cons_append]
    show ((!(c == '\n') || (prev == '\r')) && noBareLFAux c (cs ++ t)) = _
    rw [hcb]
    rw [ih c (fun x hx => h x (by simp [hx]))]
    rw [List.getLastD_cons]
    simp

theorem noBareLF_concat_lines :
    ∀ (lines : List String) (prev : Char), (∀ ln ∈ lines, cleanLine ln = true) →
      noBareLFAux prev (concatStrs (lines.map (fun ln => ln ++ CRLF))).data = true := by
  intro lines
  induction lines with
  | nil => intro prev _; rfl
  | cons ln ls ih =>
    intro prev h
    rw [List.map_cons, concatStrs_cons]
    have hd : ((ln ++ CRLF) ++ concatStrs (ls.map (fun x => x ++ CRLF))).data =
        ln.data ++ '\r' :: '\n' :: (concatStrs (ls.map (fun x => x ++ CRLF))).data := by
      simp [String.data_append, CRLF]
    rw [hd, noBareLFAux_clean_append _ _ _ (cleanLine_all (h ln (by simp)))]
    show ((!('\r' == '\n') || _) && noBareLFAux '\r' ('\n' :: _)) = true
    rw [show ('\r' == '\n') = false from rfl]
    show (true && ((!('\n' == '\n') || ('\r' == '\r')) && _)) = true
    rw [show ('\n' == '\n') = true from rfl, show ('\r' == '\r') = true from rfl]
    simp only [Bool.not_true, Bool.not_false, Bool.false_or, Bool.true_or, Bool.true_and]
    exact ih '\n' (fun x hx => h x (by simp [hx]))

/-! ### Assorted helper lemmas for the claims -/

theorem to_property_key (v : DatePerhapsTime) (key : String) :
    (v.to_property key).key = key := by
  cases v <;> rfl

theorem parseU32_repr : ∀ m, m ≤ 10 → parseU32 (Nat.repr m) = some m := by
  decide

theorem lookupKey_eq_none_of_not_contains {k : String} {l : List (String × Property)}
    (h : containsKey k l = false) : lookupKey k l = none := by
  unfold containsKey at h
  cases hl : lookupKey k l with
  | none => rfl
  | some p =>
    rw [hl] at h
    simp at h

/-! ### The claims -/

/-- C2: for every value of each of the four `DatePerhapsTime` variants
(calendar-valid, second granularity), decoding the property produced by
encoding it yields exactly the value; on a fresh component, `get_start`
after `starts`, `get_end` after `ends`, `get_recurrence_id` after
`recurrence_id` and `get_exdates` after `exdate` each return it. -/
theorem C2_date_perhaps_time_roundtrip (v : DatePerhapsTime) (hv : v.Valid) :
    (∀ key : String, DatePerhapsTime.from_property (v.to_property key) = some v) ∧
    get_start (starts InnerComponent.default v) = some v ∧
    get_end (ends InnerComponent.default v) = some v ∧
    get_recurrence_id (recurrence_id InnerComponent.default v) = some v ∧
    get_exdates (exdate InnerComponent.default v) = [v] := by
  refine ⟨fun key => from_property_to_property hv key, ?_, ?_, ?_, ?_⟩
  · simp [get_start, starts, append_property, InnerComponent.default, to_property_key,
      lookupKey_insertSorted_self, from_property_to_property hv]
  · simp [get_end, ends, append_property, InnerComponent.default, to_property_key,
      lookupKey_insertSorted_self, from_property_to_property hv]
  · simp [get_recurrence_id, recurrence_id, append_property, InnerComponent.default,
      to_property_key, lookupKey_insertSorted_self, from_property_to_property hv]
  · simp [get_exdates, exdate, append_multi_property, InnerComponent.default,
      to_property_key, from_property_to_property hv]

theorem C2_witness :
    (DatePerhapsTime.zoned ⟨⟨2001, 3, 13⟩, 14, 15, 16⟩ "Pacific/Auckland").Valid ∧
    get_start (starts InnerComponent.default
        (DatePerhapsTime.zoned ⟨⟨2001, 3, 13⟩, 14, 15, 16⟩ "Pacific/Auckland")) =
      some (DatePerhapsTime.zoned ⟨⟨2001, 3, 13⟩, 14, 15, 16⟩ "Pacific/Auckland") :=
  ⟨by decide,
    (C2_date_perhaps_time_roundtrip
      (DatePerhapsTime.zoned ⟨⟨2001, 3, 13⟩, 14, 15, 16⟩ "Pacific/Auckland")
      (by decide)).2.1⟩

/-- C3: after `priority(p)` the component stores `min(p, 10)` as a decimal
string under `PRIORITY` and `get_priority` returns `some (min p 10)`;
`get_priority` returns `none` when the key is absent, when the stored text
fails to parse as a `u32`, and when it parses above 10. -/
theorem C3_priority_clamp (c : InnerComponent) (p : Nat) (_hp : p < 4294967296) :
    property_value (priority c p) "PRIORITY" = some (Nat.repr (Nat.min p 10)) ∧
    get_priority (priority c p) = some (Nat.min p 10) ∧
    (containsKey "PRIORITY" c.properties = false → get_priority c = none) ∧
    (∀ s : String, parseU32 s = none → get_priority (add_property c "PRIORITY" s) = none) ∧
    (∀ s : String, ∀ n, parseU32 s = some n → 10 < n →
      get_priority (add_property c "PRIORITY" s) = none) := by
  have hstore : property_value (priority c p) "PRIORITY" =
      some (Nat.repr (Nat.min p 10)) := by
    simp [priority, add_property, append_property, Property.new, property_value,
      lookupKey_insertSorted_self]
  refine ⟨hstore, ?_, ?_, ?_, ?_⟩
  · simp [get_priority, hstore, parseU32_repr (Nat.min p 10) (Nat.min_le_right p 10),
      Nat.min_le_right]
  · intro h
    simp [get_priority, property_value, lookupKey_eq_none_of_not_contains h]
  · intro s hs
    have : property_value (add_property c "PRIORITY" s) "PRIORITY" = some s := by
      simp [add_property, append_property, Property.new, property_value,
        lookupKey_insertSorted_self]
    simp [get_priority, this, hs]
  · intro s n hs hn
    have : property_value (add_property c "PRIORITY" s) "PRIORITY" = some s := by
      simp [add_property, append_property, Property.new, property_value,
        lookupKey_insertSorted_self]
    simp [get_priority, this, hs, Nat.not_le.mpr hn]

theorem C3_witness :
    (25 : Nat) < 4294967296 ∧
    get_priority (priority InnerComponent.default 25) = some (Nat.min 25 10) :=
  ⟨by decide, (C3_priority_clamp InnerComponent.default 25 (by decide)).2.1⟩

/-- C4: `done` returns a value holding exactly the accumulated properties
and multi-properties and resets the original to the default empty state, so
later builder calls on the original start from empty and an immediate
second `done` yields the empty `InnerComponent`. -/
theorem C4_done_take_and_reset (c : InnerComponent) :
    (c.done).1 = c ∧
    (c.done).2 = InnerComponent.default ∧
    ((c.done).2.done).1 = InnerComponent.default ∧
    (∀ p, append_property (c.done).2 p = append_property InnerComponent.default p) ∧
    (∀ p, append_multi_property (c.done).2 p =
      append_multi_property InnerComponent.default p) := by
  exact ⟨rfl, rfl, rfl, fun _ => rfl, fun _ => rfl⟩

/-- C5: the single-valued map never holds two properties under one key
(insertion preserves the strictly-sorted-keys invariant, under which every
key count is at most one), insertion under an existing key replaces the
entry, and setting `SUMMARY` twice leaves exactly one property holding the
second value. -/
theorem C5_single_valued_replace (c : InnerComponent) (p₁ p₂ : Property)
    (s₁ s₂ : String) :
    (p₁.key = p₂.key → append_property (append_property c p₁) p₂ = append_property c p₂) ∧
    (sortedKeys c.properties = true →
      sortedKeys (append_property c p₂).properties = true ∧
      (∀ k, countKey k (append_property c p₂).properties ≤ 1) ∧
      countKey "SUMMARY" (summary (summary c s₁) s₂).properties = 1 ∧
      property_value (summary (summary c s₁) s₂) "SUMMARY" = some s₂) := by
  constructor
  · intro hk
    simp [append_property, hk, insertSorted_insertSorted_same]
  · intro hs
    refine ⟨sortedKeys_insertSorted _ _ _ hs, ?_, ?_, ?_⟩
    · intro k
      exact countKey_le_one (sortedKeys_insertSorted _ _ _ hs) k
    · simp only [summary, add_property, append_property, Property.new]
      rw [insertSorted_insertSorted_same]
      exact countKey_insertSorted _ _ _ hs
    · simp [summary, add_property, append_property, Property.new, property_value,
        lookupKey_insertSorted_self]

theorem C5_witness :
    sortedKeys InnerComponent.default.properties = true ∧
    countKey "SUMMARY"
      (summary (summary InnerComponent.default "a") "b").properties = 1 ∧
    property_value (summary (summary InnerComponent.default "a") "b") "SUMMARY" =
      some "b" :=
  ⟨by decide,
    ((C5_single_valued_replace InnerComponent.default (Property.new "X" "y")
        (Property.new "X" "y") "a" "b").2 (by decide)).2.2.1,
    ((C5_single_valued_replace InnerComponent.default (Property.new "X" "y")
        (Property.new "X" "y") "a" "b").2 (by decide)).2.2.2⟩

/-- C6: `append_multi_property` appends at the end with no deduplication;
two `exdate` calls store two `EXDATE` properties in insertion order and
`get_exdates` returns both decoded values in that order. -/
theorem C6_multi_append_exdates (c : InnerComponent) (p : Property)
    (u v : DatePerhapsTime) (hu : u.Valid) (hv : v.Valid) :
    (append_multi_property c p).multi_properties = c.multi_properties ++ [p] ∧
    get_exdates (exdate (exdate c u) v) = get_exdates c ++ [u, v] := by
  constructor
  · rfl
  · simp [get_exdates, exdate, append_multi_property, List.filter_append,
      List.filterMap_append, to_property_key, from_property_to_property hu,
      from_property_to_property hv]

theorem C6_witness :
    (DatePerhapsTime.dateOnly ⟨2001, 3, 13⟩).Valid ∧
    (DatePerhapsTime.dateOnly ⟨2002, 4, 14⟩).Valid ∧
    get_exdates (exdate (exdate InnerComponent.default
        (DatePerhapsTime.dateOnly ⟨2001, 3, 13⟩))
        (DatePerhapsTime.dateOnly ⟨2002, 4, 14⟩)) =
      get_exdates InnerComponent.default ++
        [DatePerhapsTime.dateOnly ⟨2001, 3, 13⟩, DatePerhapsTime.dateOnly ⟨2002, 4, 14⟩] :=
  ⟨by decide, by decide,
    (C6_multi_append_exdates InnerComponent.default (Property.new "X" "y")
      (DatePerhapsTime.dateOnly ⟨2001, 3, 13⟩) (DatePerhapsTime.dateOnly ⟨2002, 4, 14⟩)
      (by decide) (by decide)).2⟩

/-- C7: every `Class` value round-trips through `class`/`get_class`, and a
stored `CLASS` string outside the recognized vocabulary makes `get_class`
return `none` rather than an error. -/
theorem C7_class_roundtrip (c : InnerComponent) (cls : Class) (s : String) :
    get_class (setClass c cls) = some cls ∧
    (Class.from_str s = none → get_class (add_property c "CLASS" s) = none) ∧
    ((¬ s = "PUBLIC") → (¬ s = "PRIVATE") → (¬ s = "CONFIDENTIAL") →
      Class.from_str s = none) := by
  refine ⟨?_, ?_, ?_⟩
  · cases cls <;>
      simp [get_class, setClass, append_property, Class.toProperty, Property.new,
        property_value, lookupKey_insertSorted_self, Class.from_str]
  · intro hs
    have : property_value (add_property c "CLASS" s) "CLASS" = some s := by
      simp [add_property, append_property, Property.new, property_value,
        lookupKey_insertSorted_self]
    simp [get_class, this, hs]
  · intro h1 h2 h3
    simp [Class.from_str, h1, h2, h3]

theorem C7_witness :
    get_class (setClass InnerComponent.default Class.Private) = some Class.Private ∧
    Class.from_str "X-SECRET" = none ∧
    get_class (add_property InnerComponent.default "CLASS" "X-SECRET") = none :=
  ⟨(C7_class_roundtrip InnerComponent.default Class.Private "X-SECRET").1,
    (C7_class_roundtrip InnerComponent.default Class.Private "X-SECRET").2.2
      (by decide) (by decide) (by decide),
    (C7_class_roundtrip InnerComponent.default Class.Private "X-SECRET").2.1
      ((C7_class_roundtrip InnerComponent.default Class.Private "X-SECRET").2.2
        (by decide) (by decide) (by decide))⟩

/-- C9: `venue(location, venue_uid)` stores exactly one `LOCATION` property
whose value is the location and which carries a `VVENUE=venue_uid`
parameter; it leaves `multi_properties` untouched and replaces any
previously stored `LOCATION`. -/
theorem C9_venue_location (c : InnerComponent) (loc vuid l₀ : String) :
    (venue c loc vuid).multi_properties = c.multi_properties ∧
    (venue c loc vuid).properties =
      insertSorted "LOCATION" ⟨"LOCATION", loc, [⟨"VVENUE", vuid⟩]⟩ c.properties ∧
    lookupKey "LOCATION" (venue c loc vuid).properties =
      some ⟨"LOCATION", loc, [⟨"VVENUE", vuid⟩]⟩ ∧
    venue (location c l₀) loc vuid = venue c loc vuid ∧
    (sortedKeys c.properties = true →
      countKey "LOCATION" (venue c loc vuid).properties = 1) := by
  refine ⟨rfl, rfl, ?_, ?_, ?_⟩
  · exact lookupKey_insertSorted_self _ _ _
  · obtain ⟨props, multi⟩ := c
    simp [venue, location, add_property, append_property, Property.new,
      Property.append_parameter, Property.done, insertSorted_insertSorted_same]
  · intro hs
    exact countKey_insertSorted _ _ _ hs

theorem C9_witness :
    lookupKey "LOCATION" (venue InnerComponent.default "hall" "venue-1").properties =
      some ⟨"LOCATION", "hall", [⟨"VVENUE", "venue-1"⟩]⟩ ∧
    countKey "LOCATION" (venue InnerComponent.default "hall" "venue-1").properties = 1 :=
  ⟨(C9_venue_location InnerComponent.default "hall" "venue-1" "x").2.2.1,
    (C9_venue_location InnerComponent.default "hall" "venue-1" "x").2.2.2.2 (by decide)⟩

/-- C10: `all_day(d)` stores a `DTSTART` and a `DTEND` property, each the
date-only (`VALUE=DATE`) encoding of the same date, and touches no other
single-valued or multi-valued property. -/
theorem C10_all_day (c : InnerComponent) (d : NaiveDate) (hd : d.Valid) :
    lookupKey "DTSTART" (all_day c d).properties =
      some (naive_date_to_property d "DTSTART") ∧
    lookupKey "DTEND" (all_day c d).properties =
      some (naive_date_to_property d "DTEND") ∧
    (all_day c d).multi_properties = c.multi_properties ∧
    (∀ k, (¬ k = "DTSTART") → (¬ k = "DTEND") →
      lookupKey k (all_day c d).properties = lookupKey k c.properties) ∧
    DatePerhapsTime.from_property (naive_date_to_property d "DTSTART") =
      some (DatePerhapsTime.dateOnly d) ∧
    DatePerhapsTime.from_property (naive_date_to_property d "DTEND") =
      some (DatePerhapsTime.dateOnly d) := by
  refine ⟨?_, ?_, rfl, ?_, ?_, ?_⟩
  · show lookupKey "DTSTART"
      (insertSorted "DTEND" _ (insertSorted "DTSTART" _ c.properties)) = _
    rw [lookupKey_insertSorted_ne _ (by decide), lookupKey_insertSorted_self]
  · exact lookupKey_insertSorted_self _ _ _
  · intro k hk1 hk2
    show lookupKey k
      (insertSorted "DTEND" _ (insertSorted "DTSTART" _ c.properties)) = _
    rw [lookupKey_insertSorted_ne _ hk2, lookupKey_insertSorted_ne _ hk1]
  · exact from_property_to_property (v := DatePerhapsTime.dateOnly d) hd "DTSTART"
  · exact from_property_to_property (v := DatePerhapsTime.dateOnly d) hd "DTEND"

theorem C10_witness :
    (⟨2001, 3, 13⟩ : NaiveDate).Valid ∧
    lookupKey "DTSTART" (all_day InnerComponent.default ⟨2001, 3, 13⟩).properties =
      some (naive_date_to_property ⟨2001, 3, 13⟩ "DTSTART") :=
  ⟨by decide, (C10_all_day InnerComponent.default ⟨2001, 3, 13⟩ (by decide)).1⟩

/-- C1: `fmt_write` emits the `BEGIN` line, then a synthesized `DTSTAMP`
line exactly when no `DTSTAMP` key is stored, then the single-valued
properties one line each in map order, then a synthesized `UID` line
exactly when no `UID` key is stored, then the multi-valued properties in
insertion order, then the `END` line; a component with no explicit `UID` or
`DTSTAMP` therefore serializes with exactly one `UID` line and exactly one
`DTSTAMP` line, in exactly those positions. -/
theorem C1_fmt_write_structure (kind : String) (c : InnerComponent)
    (now : NaiveDateTime) (newUid : String)
    (h1 : containsKey "DTSTAMP" c.properties = false)
    (h2 : containsKey "UID" c.properties = false)
    (hclean : ∀ kv ∈ c.properties, cleanKey kv.2.key = true ∧
      kv.2.key ≠ "UID" ∧ kv.2.key ≠ "DTSTAMP")
    (hcleanm : ∀ p ∈ c.multi_properties, cleanKey p.key = true ∧
      p.key ≠ "UID" ∧ p.key ≠ "DTSTAMP") :
    fmt_write kind c now newUid =
      concatStrs ((fmtLines kind c now newUid).map (fun ln => ln ++ CRLF)) ∧
    fmtLines kind c now newUid =
      ("BEGIN:" ++ kind) :: ("DTSTAMP:" ++ format_utc_date_time now) ::
        (c.properties.map (fun kv => renderProperty kv.2) ++
          ("UID:" ++ newUid) ::
            (c.multi_properties.map renderProperty ++ ["END:" ++ kind])) ∧
    (fmtLines kind c now newUid)[1]? = some ("DTSTAMP:" ++ format_utc_date_time now) ∧
    (fmtLines kind c now newUid)[2 + c.properties.length]? = some ("UID:" ++ newUid) ∧
    countKeyLines "DTSTAMP" (fmtLines kind c now newUid) = 1 ∧
    countKeyLines "UID" (fmtLines kind c now newUid) = 1 := by
  have hL : fmtLines kind c now newUid =
      ("BEGIN:" ++ kind) :: ("DTSTAMP:" ++ format_utc_date_time now) ::
        (c.properties.map (fun kv => renderProperty kv.2) ++
          ("UID:" ++ newUid) ::
            (c.multi_properties.map renderProperty ++ ["END:" ++ kind])) := by
    simp [fmtLines, h1, h2]
  have hG : fmtLines kind c now newUid =
      (["BEGIN:" ++ kind, "DTSTAMP:" ++ format_utc_date_time now] ++
          c.properties.map (fun kv => renderProperty kv.2)) ++
        ("UID:" ++ newUid) ::
          (c.multi_properties.map renderProperty ++ ["END:" ++ kind]) := by
    simp [fmtLines, h1, h2]
  refine ⟨fmt_write_eq_concat kind c now newUid, hL, ?_, ?_, ?_, ?_⟩
  · rw [hL]
    simp
  · rw [hG, List.getElem?_append_right (by
      simp only [List.length_append, List.length_cons, List.length_nil, List.length_map]
      omega)]
    rw [show 2 + c.properties.length -
        (["BEGIN:" ++ kind, "DTSTAMP:" ++ format_utc_date_time now] ++
          c.properties.map (fun kv => renderProperty kv.2)).length = 0 from by
      simp only [List.length_append, List.length_cons, List.length_nil, List.length_map]
      omega]
    simp
  · rw [hL, countKeyLines_cons, countKeyLines_cons, countKeyLines_append,
      countKeyLines_cons, countKeyLines_append, countKeyLines_cons, countKeyLines_nil,
      lineKey_begin, lineKey_dtstamp, lineKey_uid, lineKey_end,
      countKeyLines_map_eq_zero (fun kv hkv => ⟨(hclean kv hkv).1, (hclean kv hkv).2.2⟩),
      countKeyLines_multi_eq_zero (fun p hp => ⟨(hcleanm p hp).1, (hcleanm p hp).2.2⟩)]
    rw [if_neg (by decide), if_pos rfl, if_neg (by decide), if_neg (by decide)]
  · rw [hL, countKeyLines_cons, countKeyLines_cons, countKeyLines_append,
      countKeyLines_cons, countKeyLines_append, countKeyLines_cons, countKeyLines_nil,
      lineKey_begin, lineKey_dtstamp, lineKey_uid, lineKey_end,
      countKeyLines_map_eq_zero (fun kv hkv => ⟨(hclean kv hkv).1, (hclean kv hkv).2.1⟩),
      countKeyLines_multi_eq_zero (fun p hp => ⟨(hcleanm p hp).1, (hcleanm p hp).2.1⟩)]
    rw [if_neg (by decide), if_neg (by decide), if_pos rfl, if_neg (by decide)]

theorem C1_witness :
    countKeyLines "DTSTAMP" (fmtLines "VEVENT" (summary InnerComponent.default "hi")
      ⟨⟨2001, 3, 13⟩, 14, 15, 16⟩ "uid-1") = 1 ∧
    countKeyLines "UID" (fmtLines "VEVENT" (summary InnerComponent.default "hi")
      ⟨⟨2001, 3, 13⟩, 14, 15, 16⟩ "uid-1") = 1 :=
  ⟨(C1_fmt_write_structure "VEVENT" (summary InnerComponent.default "hi")
      ⟨⟨2001, 3, 13⟩, 14, 15, 16⟩ "uid-1" (by decide) (by decide) (by decide)
      (by decide)).2.2.2.2.1,
    (C1_fmt_write_structure "VEVENT" (summary InnerComponent.default "hi")
      ⟨⟨2001, 3, 13⟩, 14, 15, 16⟩ "uid-1" (by decide) (by decide) (by decide)
      (by decide)).2.2.2.2.2⟩

/-- C8: every line `fmt_write` emits — `BEGIN`, synthesized `DTSTAMP`,
property lines, synthesized `UID`, `END` — is terminated with the
carriage-return/line-feed pair, and (for line bodies free of control
characters) the output contains no bare line feed. -/
theorem C8_crlf_terminators (kind : String) (c : InnerComponent)
    (now : NaiveDateTime) (newUid : String)
    (h : ∀ ln ∈ fmtLines kind c now newUid, cleanLine ln = true) :
    fmt_write kind c now newUid =
      concatStrs ((fmtLines kind c now newUid).map (fun ln => ln ++ CRLF)) ∧
    noBareLF (fmt_write kind c now newUid).data = true := by
  refine ⟨fmt_write_eq_concat kind c now newUid, ?_⟩
  rw [fmt_write_eq_concat]
  exact noBareLF_concat_lines _ 'x' h

theorem C8_witness :
    noBareLF (fmt_write "VEVENT" (summary InnerComponent.default "hi")
      ⟨⟨2001, 3, 13⟩, 14, 15, 16⟩ "uid-1").data = true :=
  (C8_crlf_terminators "VEVENT" (summary InnerComponent.default "hi")
    ⟨⟨2001, 3, 13⟩, 14, 15, 16⟩ "uid-1" (by decide)).2

end Icalendar
